import Mathlib

/-!
Verification of the PLUTO finite-volume (R)MHD integrator against its
specification.  The repository's visible files are the problem
configuration header (definitions.h excerpt: PHYSICS RMHD, DIMENSIONS 2,
GEOMETRY CARTESIAN, RECONSTRUCTION LINEAR, LIMITER VANLEER_LIM,
DIVB_CONTROL CONSTRAINED_TRANSPORT, CT_EMF_AVERAGE UCT_CONTACT,
TIME_STEPPING RK2), the RHD module makefile (naming eigenv.c, hll.c,
hllc.c, tvdlf.c, two_shock.c, pressure_fix.c, ...), and two versions of
the user initial-condition function Init (a supernova-remnant setup).

The numerical core itself (eigenvalue module, Riemann solvers, pressure
fix, constrained transport) is not among the repository's files: those
components are modelled from the spec, as marked in each doc comment.
The two Init functions are embedded directly from the C source.
All machine floating-point arithmetic is modelled by exact rationals;
the C math library functions (sqrt, pow, sin, cos) that have no exact
rational counterpart are kept abstract as parameters.
-/

namespace Pluto

/-! ## Constrained transport (claim C1)

The configuration header selects DIVB_CONTROL CONSTRAINED_TRANSPORT and
CT_EMF_AVERAGE UCT_CONTACT in two Cartesian dimensions.  The staggered
face field and the CT curl update are modelled from the spec (the CT
engine's code is not in the repository). -/

/-- Staggered face-centered magnetic field on a 2D Cartesian grid:
`bx i j` holds the x-component on face (i+1/2, j), `bY i j` the
y-component on face (i, j+1/2). -/
@[ext]
structure FaceField where
  bx : ℤ → ℤ → ℚ
  bY : ℤ → ℤ → ℚ

/-- Discrete divergence of a staggered face field at cell (i, j), the
fixed finite-difference stencil of the spec. -/
def divB (B : FaceField) (dx dy : ℚ) (i j : ℤ) : ℚ :=
  (B.bx i j - B.bx (i - 1) j) / dx + (B.bY i j - B.bY i (j - 1)) / dy

/-- Modelled from the spec: the constrained-transport update of the face
field over one sub-stage.  `ez i j` is the edge-centered EMF (the z
component, the only one in 2D) on edge (i+1/2, j+1/2), produced by
whichever edge-averaging rule is configured; the update is the curl of
the edge EMFs via the fixed finite-difference stencil. -/
def ctUpdate (B : FaceField) (ez : ℤ → ℤ → ℚ) (dt dx dy : ℚ) : FaceField where
  bx := fun i j => B.bx i j - dt / dy * (ez i j - ez i (j - 1))
  bY := fun i j => B.bY i j + dt / dx * (ez i j - ez (i - 1) j)

/-- Modelled from the spec: the UCT_CONTACT edge-averaging rule selected
by CT_EMF_AVERAGE.  The four face-centered EMF contributions around edge
(i+1/2, j+1/2) — `exS`/`exN` from the y-faces below/above, `eyW`/`eyE`
from the x-faces left/right — are combined with an upwind bias chosen by
the sign of the contact (transported-mass) velocity at the edge:
positive sign biases toward the left/lower contributions, negative
toward the right/upper, and a vanishing contact velocity falls back to
the equal-weight average of the four. -/
def uctContact (exS exN eyW eyE : ℤ → ℤ → ℚ) (vctr : ℤ → ℤ → ℚ)
    (i j : ℤ) : ℚ :=
  if 0 < vctr i j then (exS i j + eyW i j) / 2
  else if vctr i j < 0 then (exN i j + eyE i j) / 2
  else (exS i j + exN i j + eyW i j + eyE i j) / 4

/-! ## Relativistic hydrodynamics: states, fluxes, Riemann solvers
(claims C2, C3, C4, C5)

The RHD module's makefile lists eigenv.c, fluxes.c, mappers.c,
pressure_fix.c, hll.c, hllc.c, tvdlf.c, two_shock.c; none of those
sources are among the repository's files, so these definitions are
modelled from the spec.  Machine doubles are modelled by exact
rationals; a primitive state carries its Lorentz factor as an explicit
field, tied to the velocity by the admissibility predicate, so that all
flux algebra stays inside ℚ. -/

/-- Primitive RHD state: density, two velocity components (2D), gas
pressure, and the Lorentz factor of the velocity. -/
structure Prim where
  rho : ℚ
  vx : ℚ
  vy : ℚ
  prs : ℚ
  lor : ℚ
deriving DecidableEq

/-- Conservative RHD state (or a flux vector of the same shape):
lab-frame density, two momentum components, total energy. -/
@[ext]
structure Cons where
  dens : ℚ
  mx : ℚ
  my : ℚ
  en : ℚ
deriving DecidableEq

instance : Add Cons :=
  ⟨fun u v => ⟨u.dens + v.dens, u.mx + v.mx, u.my + v.my, u.en + v.en⟩⟩

instance : Sub Cons :=
  ⟨fun u v => ⟨u.dens - v.dens, u.mx - v.mx, u.my - v.my, u.en - v.en⟩⟩

/-- Scalar multiple of a conservative vector. -/
def Cons.smul (c : ℚ) (u : Cons) : Cons :=
  ⟨c * u.dens, c * u.mx, c * u.my, c * u.en⟩

/-- Ideal-gas specific enthalpy (EOS IDEAL): h = 1 + g/(g-1) p/ρ. -/
def enthalpy (g : ℚ) (q : Prim) : ℚ :=
  1 + g / (g - 1) * q.prs / q.rho

/-- ρ h γ², the inertia density of the state. -/
def wtot (g : ℚ) (q : Prim) : ℚ :=
  q.rho * enthalpy g q * q.lor ^ 2

/-- Modelled from the spec: the conservative variables of a primitive
state (the mappers of the RHD module). -/
def primToCons (g : ℚ) (q : Prim) : Cons :=
  ⟨q.rho * q.lor, wtot g q * q.vx, wtot g q * q.vy, wtot g q - q.prs⟩

/-- Modelled from the spec: the analytic physical flux of a primitive
state along the x direction. -/
def physFlux (g : ℚ) (q : Prim) : Cons :=
  ⟨q.rho * q.lor * q.vx, wtot g q * q.vx ^ 2 + q.prs,
   wtot g q * q.vy * q.vx, wtot g q * q.vx⟩

/-- Admissibility of a primitive interface state: adiabatic index above
one, positive density and pressure, subluminal velocity, and a Lorentz
factor consistent with the velocity. -/
def Admissible (g : ℚ) (q : Prim) : Prop :=
  1 < g ∧ 0 < q.rho ∧ 0 < q.prs ∧ q.vx ^ 2 + q.vy ^ 2 < 1 ∧
    0 < q.lor ∧ q.lor ^ 2 * (1 - (q.vx ^ 2 + q.vy ^ 2)) = 1

instance (g : ℚ) (q : Prim) : Decidable (Admissible g q) := by
  unfold Admissible
  infer_instance

/-- Modelled from the spec: the diffusive two-wave TVDLF flux, the
arithmetic mean of the two physical fluxes minus the dissipation term
scaled by the maximal signal speed cmax. -/
def tvdlf (g cmax : ℚ) (qL qR : Prim) : Cons :=
  Cons.smul (1 / 2) (physFlux g qL + physFlux g qR)
    - Cons.smul (cmax / 2) (primToCons g qR - primToCons g qL)

/-- Modelled from the spec: the two-wave HLL flux for signal-speed
estimates sL and sR (supplied by the hll_speed estimator): the left flux
when the whole fan moves right, the right flux when it moves left, and
the linear star-region blend otherwise. -/
def hll (g sL sR : ℚ) (qL qR : Prim) : Cons :=
  if 0 ≤ sL then physFlux g qL
  else if sR ≤ 0 then physFlux g qR
  else
    Cons.smul (1 / (sR - sL))
      (Cons.smul sR (physFlux g qL) - Cons.smul sL (physFlux g qR)
        + Cons.smul (sL * sR) (primToCons g qR - primToCons g qL))

/-- The HLL average state over the Riemann fan. -/
def hllState (g sL sR : ℚ) (qL qR : Prim) : Cons :=
  Cons.smul (1 / (sR - sL))
    (Cons.smul sR (primToCons g qR) - Cons.smul sL (primToCons g qL)
      + physFlux g qL - physFlux g qR)

/-- The HLL average flux over the Riemann fan. -/
def hllFlux (g sL sR : ℚ) (qL qR : Prim) : Cons :=
  Cons.smul (1 / (sR - sL))
    (Cons.smul sR (physFlux g qL) - Cons.smul sL (physFlux g qR)
      + Cons.smul (sL * sR) (primToCons g qR - primToCons g qL))

/-- Leading coefficient of the HLLC contact-speed quadratic: the energy
component of the HLL flux. -/
def hllcQuadA (g sL sR : ℚ) (qL qR : Prim) : ℚ :=
  (hllFlux g sL sR qL qR).en

/-- Middle coefficient of the HLLC contact-speed quadratic. -/
def hllcQuadB (g sL sR : ℚ) (qL qR : Prim) : ℚ :=
  -((hllState g sL sR qL qR).en + (hllFlux g sL sR qL qR).mx)

/-- Constant coefficient of the HLLC contact-speed quadratic: the normal
momentum of the HLL state. -/
def hllcQuadC (g sL sR : ℚ) (qL qR : Prim) : ℚ :=
  (hllState g sL sR qL qR).mx

/-- The HLLC star pressure determined by a contact speed lam through the
contact condition on the HLL average. -/
def hllcPs (g sL sR lam : ℚ) (qL qR : Prim) : ℚ :=
  (hllFlux g sL sR qL qR).mx - (hllFlux g sL sR qL qR).en * lam

/-- Modelled from the spec: the HLLC star state on the side of outer
wave speed s, for contact speed lam and star pressure ps, from the
Rankine–Hugoniot conditions across the outer wave. -/
def hllcStar (g s lam ps : ℚ) (q : Prim) : Cons :=
  ⟨(primToCons g q).dens * (s - q.vx) / (s - lam),
   ((primToCons g q).mx * (s - q.vx) + ps - q.prs) / (s - lam),
   (primToCons g q).my * (s - q.vx) / (s - lam),
   ((primToCons g q).en * (s - q.vx) + ps * lam - q.prs * q.vx) / (s - lam)⟩

/-- Modelled from the spec: the three-wave HLLC flux.  lam is the
contact speed, the root of the quadratic hllcQuadA·λ² + hllcQuadB·λ +
hllcQuadC inside the light cone; hllc.c finds it by the quadratic
formula, our embedding takes it as an argument characterized by exactly
those two conditions.  The returned flux is the one of the sub-region
containing the interface, and a contact speed of exactly zero is broken
toward the left state's side. -/
def hllc (g sL sR lam : ℚ) (qL qR : Prim) : Cons :=
  if 0 ≤ sL then physFlux g qL
  else if sR ≤ 0 then physFlux g qR
  else if 0 ≤ lam then
    physFlux g qL
      + Cons.smul sL (hllcStar g sL lam (hllcPs g sL sR lam qL qR) qL - primToCons g qL)
  else
    physFlux g qR
      + Cons.smul sR (hllcStar g sR lam (hllcPs g sL sR lam qL qR) qR - primToCons g qR)

/-- Newton iteration on pressure: residual f, derivative df, acceptance
tolerance tol, and a fixed fuel of steps; none when the fuel runs out
before the residual is within tolerance. -/
def newton (f df : ℚ → ℚ) (tol : ℚ) : ℚ → ℕ → Option ℚ
  | p, 0 => if |f p| ≤ tol then some p else none
  | p, n + 1 => if |f p| ≤ tol then some p else newton f df tol (p - f p / df p) n

/-- The fixed maximum number of Newton steps of the two-shock solver. -/
def TS_MAX_ITER : ℕ := 50

/-- The flux returned for one face together with the fallback-event flag
of the diagnostic stream. -/
structure SolverResult where
  flux : Cons
  fallbackLogged : Bool

/-- Modelled from the spec: the iterative two-shock solver.  The wave
curves of two_shock.c (shock adiabats) are not in the repository; they
enter as the function wstar — wstar q p is the state behind the wave of
downstream pressure p connecting to the outer state q — and dvstar, the
pressure derivative of its velocity.  The solver Newton-iterates the
equal-star-velocity residual from the mean pressure for at most
TS_MAX_ITER steps; on convergence it returns the physical flux of the
star state on the interface side of the contact; if the iteration fails
to converge it falls back to the two-wave HLL flux for this one face
and logs the event — the result is always a flux, never an abort. -/
def twoShock (g : ℚ) (wstar : Prim → ℚ → Prim) (dvstar : Prim → ℚ → ℚ)
    (tol sL sR : ℚ) (qL qR : Prim) : SolverResult :=
  match newton (fun p => (wstar qL p).vx - (wstar qR p).vx)
      (fun p => dvstar qL p - dvstar qR p) tol ((qL.prs + qR.prs) / 2) TS_MAX_ITER with
  | some ps =>
      if 0 ≤ ((wstar qL ps).vx + (wstar qR ps).vx) / 2 then
        ⟨physFlux g (wstar qL ps), false⟩
      else
        ⟨physFlux g (wstar qR ps), false⟩
  | none => ⟨hll g sL sR qL qR, true⟩

/-! ## Pressure/Density Fix (claim C3) -/

/-- The physical-validity test of the Pressure/Density Fix: positive
density and pressure and subluminal velocity; a recovered state failing
it is the unphysical-state trigger of the fix. -/
def validState (q : Prim) : Bool :=
  decide (0 < q.rho) && decide (0 < q.prs) && decide (q.vx ^ 2 + q.vy ^ 2 < 1)

/-- Componentwise arithmetic mean of a list of primitive states. -/
def primAverage (l : List Prim) : Prim :=
  ⟨(l.map Prim.rho).sum / l.length, (l.map Prim.vx).sum / l.length,
   (l.map Prim.vy).sum / l.length, (l.map Prim.prs).sum / l.length,
   (l.map Prim.lor).sum / l.length⟩

/-- Modelled from the spec: the Pressure/Density Fix for one cell, given
the cell's recovered primitive state and the list of its immediate
neighbors' states.  An unphysical state is replaced by the arithmetic
mean of the primitive variables of the currently-valid neighbors, and
the conservative state is re-derived from the repaired primitive state;
a valid state is left untouched. -/
def pressureFix (g : ℚ) (q : Prim) (nbs : List Prim) : Prim × Cons :=
  if validState q then (q, primToCons g q)
  else
    (primAverage (nbs.filter validState),
      primToCons g (primAverage (nbs.filter validState)))

/-! ## Eigenvalue breakdown propagation (claim C4) -/

/-- A numerical-breakdown report: the offending cell index together with
its field values. -/
structure EigenErr where
  idx : ℕ
  state : Prim
deriving DecidableEq

/-- Ascending order check on a list of candidate wave speeds. -/
def ascending : List ℚ → Bool
  | [] => true
  | [_] => true
  | x :: y :: rest => decide (x ≤ y) && ascending (y :: rest)

/-- Modelled from the spec: the per-cell eigenvalue computation of
eigenv.c.  The magnetosonic root-finder is abstracted as the function
roots, returning none when it does not converge to real roots; the
module checks the ascending ordering of the delivered speeds and signals
a non-recoverable numerical breakdown carrying the cell index and the
cell's field values when either the root-finding or the ordering
fails. -/
def eigenv (roots : Prim → Option (List ℚ)) (i : ℕ) (q : Prim) :
    Except EigenErr (List ℚ) :=
  match roots q with
  | none => .error ⟨i, q⟩
  | some ls => if ascending ls then .ok ls else .error ⟨i, q⟩

/-- Modelled from the spec: the integrator's eigenvalue sweep over the
cells of the current step.  The first numerical breakdown aborts the
sweep and is propagated unchanged to the caller; only if every cell
succeeds does the sweep return the collected characteristic speeds. -/
def sweep (roots : Prim → Option (List ℚ)) :
    List (ℕ × Prim) → Except EigenErr (List (List ℚ))
  | [] => .ok []
  | c :: rest =>
    match eigenv roots c.1 c.2 with
    | .error e => .error e
    | .ok ls =>
      match sweep roots rest with
      | .error e => .error e
      | .ok out => .ok (ls :: out)

/-! ## Slope-limited linear reconstruction (claim C6) -/

/-- The van Leer slope limiter (LIMITER VANLEER_LIM): the harmonic mean
of the one-sided differences when they agree in sign, zero at a local
extremum.  Modelled from the spec (the limiter source is not among the
repository's files). -/
def vanLeer (dp dm : ℚ) : ℚ :=
  if 0 < dp * dm then 2 * dp * dm / (dp + dm) else 0

/-- Modelled from the spec: limited linear reconstruction
(RECONSTRUCTION LINEAR) of one primitive variable of cell i from the
three-cell stencil (qm, q, qp), returning the cell's interface values at
faces i-1/2 and i+1/2.  For a positive quantity (density or pressure,
selected by clampPos) an extrapolation that would turn negative is
clamped to the donor-cell value q. -/
def reconstruct (clampPos : Bool) (qm q qp : ℚ) : ℚ × ℚ :=
  (if clampPos && decide (q - vanLeer (qp - q) (q - qm) / 2 < 0) then q
   else q - vanLeer (qp - q) (q - qm) / 2,
   if clampPos && decide (q + vanLeer (qp - q) (q - qm) / 2 < 0) then q
   else q + vanLeer (qp - q) (q - qm) / 2)

/-! ## The advance-one-step operation and the null test (claim C7)

The step is assembled exactly as the spec's time-integrator contract
prescribes: reconstruction, a Riemann solve per face, the conservative
flux-difference update, the CT edge average and curl update of the
staggered field, and the pressure fix after primitive recovery, composed
into the two-stage Runge–Kutta step (TIME_STEPPING RK2).  The RMHD
solver, the primitive recovery and the mappers are not among the
repository's files: they enter as parameters of the step, and the null
test is proved for every choice of them. -/

/-- Cell-centered primitive RMHD state vector (2D). -/
structure MPrim where
  rho : ℚ
  vx : ℚ
  vy : ℚ
  prs : ℚ
  bx : ℚ
  bY : ℚ
deriving DecidableEq

/-- Cell-centered conservative RMHD state vector (or a flux of the same
shape; bcx and bcy are the induction-equation components). -/
@[ext]
structure MVec where
  dens : ℚ
  mx : ℚ
  my : ℚ
  en : ℚ
  bcx : ℚ
  bcy : ℚ
deriving DecidableEq

instance : Add MVec :=
  ⟨fun u v => ⟨u.dens + v.dens, u.mx + v.mx, u.my + v.my, u.en + v.en,
    u.bcx + v.bcx, u.bcy + v.bcy⟩⟩

instance : Sub MVec :=
  ⟨fun u v => ⟨u.dens - v.dens, u.mx - v.mx, u.my - v.my, u.en - v.en,
    u.bcx - v.bcx, u.bcy - v.bcy⟩⟩

/-- Scalar multiple of a cell vector. -/
def MVec.smul (c : ℚ) (u : MVec) : MVec :=
  ⟨c * u.dens, c * u.mx, c * u.my, c * u.en, c * u.bcx, c * u.bcy⟩

/-- Physical validity of a recovered RMHD primitive state. -/
def mValid (p : MPrim) : Bool :=
  decide (0 < p.rho) && decide (0 < p.prs) && decide (p.vx ^ 2 + p.vy ^ 2 < 1)

/-- Componentwise arithmetic mean of a list of RMHD primitive states. -/
def mAverage (l : List MPrim) : MPrim :=
  ⟨(l.map MPrim.rho).sum / l.length, (l.map MPrim.vx).sum / l.length,
   (l.map MPrim.vy).sum / l.length, (l.map MPrim.prs).sum / l.length,
   (l.map MPrim.bx).sum / l.length, (l.map MPrim.bY).sum / l.length⟩

/-- Componentwise limited reconstruction of a primitive cell vector from
its three-cell stencil along one direction, giving the cell's two
interface vectors; density and pressure carry the positivity clamp. -/
def mReconstruct (qm q qp : MPrim) : MPrim × MPrim :=
  (⟨(reconstruct true qm.rho q.rho qp.rho).1, (reconstruct false qm.vx q.vx qp.vx).1,
    (reconstruct false qm.vy q.vy qp.vy).1, (reconstruct true qm.prs q.prs qp.prs).1,
    (reconstruct false qm.bx q.bx qp.bx).1, (reconstruct false qm.bY q.bY qp.bY).1⟩,
   ⟨(reconstruct true qm.rho q.rho qp.rho).2, (reconstruct false qm.vx q.vx qp.vx).2,
    (reconstruct false qm.vy q.vy qp.vy).2, (reconstruct true qm.prs q.prs qp.prs).2,
    (reconstruct false qm.bx q.bx qp.bx).2, (reconstruct false qm.bY q.bY qp.bY).2⟩)

/-- The full state advanced by the integrator: the cell-centered
conservative field together with the staggered face field. -/
@[ext]
structure GridState where
  cc : ℤ → ℤ → MVec
  face : FaceField

/-- Modelled from the spec: one spatial sub-stage of the integrator.
recover is the primitive recovery, toCons the inverse mapper, xflux and
yflux the configured Riemann solver applied to the reconstructed
interface states and the face-normal staggered field component, emfAvg
the configured CT edge-averaging rule applied to the four face-centered
induction fluxes around the edge; the cell update is the conservative
flux difference, the face update the CT curl, and the pressure fix
repairs any invalid recovered cell from its valid neighbors. -/
def stage (xflux yflux : MPrim → MPrim → ℚ → MVec)
    (emfAvg : ℚ → ℚ → ℚ → ℚ → ℚ) (recover : MVec → MPrim) (toCons : MPrim → MVec)
    (dt dx dy : ℚ) (s : GridState) : GridState :=
  let prim : ℤ → ℤ → MPrim := fun i j => recover (s.cc i j)
  let Fx : ℤ → ℤ → MVec := fun i j =>
    xflux (mReconstruct (prim (i - 1) j) (prim i j) (prim (i + 1) j)).2
      (mReconstruct (prim i j) (prim (i + 1) j) (prim (i + 2) j)).1
      (s.face.bx i j)
  let Fy : ℤ → ℤ → MVec := fun i j =>
    yflux (mReconstruct (prim i (j - 1)) (prim i j) (prim i (j + 1))).2
      (mReconstruct (prim i j) (prim i (j + 1)) (prim i (j + 2))).1
      (s.face.bY i j)
  let cc1 : ℤ → ℤ → MVec := fun i j =>
    s.cc i j + MVec.smul (dt / dx) (Fx (i - 1) j - Fx i j)
      + MVec.smul (dt / dy) (Fy i (j - 1) - Fy i j)
  let ez : ℤ → ℤ → ℚ := fun i j =>
    emfAvg (Fy i j).bcx (Fy (i + 1) j).bcx (Fx i j).bcy (Fx i (j + 1)).bcy
  let cc2 : ℤ → ℤ → MVec := fun i j =>
    if mValid (recover (cc1 i j)) then cc1 i j
    else
      toCons (mAverage ((([cc1 (i - 1) j, cc1 (i + 1) j, cc1 i (j - 1),
        cc1 i (j + 1)].map recover).filter mValid)))
  ⟨cc2, ctUpdate s.face ez dt dx dy⟩

/-- Modelled from the spec: the advance-one-step operation, the
two-stage Runge–Kutta combination of the spatial sub-stage. -/
def rk2Step (xflux yflux : MPrim → MPrim → ℚ → MVec)
    (emfAvg : ℚ → ℚ → ℚ → ℚ → ℚ) (recover : MVec → MPrim) (toCons : MPrim → MVec)
    (dt dx dy : ℚ) (s : GridState) : GridState :=
  let s2 := stage xflux yflux emfAvg recover toCons dt dx dy
    (stage xflux yflux emfAvg recover toCons dt dx dy s)
  ⟨fun i j => MVec.smul (1 / 2) (s.cc i j + s2.cc i j),
   ⟨fun i j => (s.face.bx i j + s2.face.bx i j) / 2,
    fun i j => (s.face.bY i j + s2.face.bY i j) / 2⟩⟩

/-- The spatially uniform state: every cell holds the vector u and the
two staggered field components are the constants bx0 and by0. -/
def uniformState (u : MVec) (bx0 by0 : ℚ) : GridState :=
  ⟨fun _ _ => u, ⟨fun _ _ => bx0, fun _ _ => by0⟩⟩

/-! ## The Init problem-setup functions (claims C8, C9, C10)

Both versions of Init — the unnamed repository file and
src/PLUTO/CTB_109/init.c — are embedded directly from the C source, for
the configuration visible in the repository: BACKGROUND_FIELD and
ADD_TURBULENCE are not defined (so both preprocessor branches are off),
GEOMETRY is CARTESIAN, and the three-dimensional expansion of D_EXPAND
is used (the ejecta branches read x3).  C doubles are exact rationals;
the C math functions sqrt, pow, sin and cos are abstract fields of COps
(the claims need nothing about their values beyond sqrt 0 = 0 where
stated); fabs is exact absolute value. -/

/-- The C math library functions Init calls, kept abstract. -/
structure COps where
  sqrt : ℚ → ℚ
  pow : ℚ → ℚ → ℚ
  sin : ℚ → ℚ
  cos : ℚ → ℚ

/-- The entries of the primitive array us that Init reads or writes. -/
structure UsVec where
  rho : ℚ
  vx1 : ℚ
  vx2 : ℚ
  vx3 : ℚ
  prs : ℚ
  bx1 : ℚ
  bx2 : ℚ
  bx3 : ℚ
  ax1 : ℚ
  ax2 : ℚ
  ax3 : ℚ
deriving DecidableEq

/-- The g_inputParam entries referenced by the two Init versions. -/
structure Params where
  E_EJ : ℚ
  M_EJ : ℚ
  R_EJ : ℚ
  N_H : ℚ
  U_AM : ℚ
  W_C : ℚ
  N_PI : ℚ
  S_PI : ℚ
  Temp : ℚ
  GAMMA : ℚ
  ETA : ℚ
  BMAG : ℚ
  THETA : ℚ
  PHI : ℚ
deriving DecidableEq

/-- PLUTO's CONST_PI macro, the fixed decimal literal
3.14159265358979 of the header. -/
def CONST_PI : ℚ := 314159265358979 / 10 ^ 14

/-- PLUTO's CONST_kB macro, the Boltzmann constant in CGS,
1.3806505e-16. -/
def CONST_kB : ℚ := 13806505 / 10 ^ 23

/-- The ejecta core radius of the unnamed Init version:
r_c = R_ej * w_c. -/
def blastRc (P : Params) : ℚ := P.R_EJ * P.W_C

/-- The Init function of the unnamed repository file, embedded from the
C source.  B0 and several intermediate quantities are assigned but,
like in the source, never used; the magnetic-field assignments to
us[BX1], us[BX2], us[BX3] are commented out in the source, so the bx
fields pass through from the pre-call array. -/
def initBlast (ops : COps) (P : Params) (x1 x2 x3 : ℚ) (us : UsVec) : UsVec :=
  let E_ej := P.E_EJ
  let M_ej := P.M_EJ
  let R_ej := P.R_EJ
  let n_h := P.N_H
  let u := P.U_AM
  let w_c := P.W_C
  let n := P.N_PI
  let n_ISM := n_h * u
  let T := P.Temp
  let r_c := blastRc P
  let fnc := 3 / 4 / CONST_PI * (1 - n / 3) / (1 - n / 3 * ops.pow w_c (3 - n))
  let alpha := (3 - n) / (5 - n) * (ops.pow w_c (n - 5) - n / 5)
    / (ops.pow w_c (n - 3) - n / 3) * ops.pow w_c 2
  let v_ej := ops.pow (E_ej / (M_ej * alpha * (1 / 2))) (1 / 2)
  let t := R_ej / v_ej
  let rho_ch := M_ej / ops.pow R_ej 3
  let R_ch := ops.pow M_ej (1 / 3) * ops.pow n_ISM (-(1 / 3))
  let ph : ℚ := 11 / 10
  let l : ℚ := 343 / 1000
  let r := ops.sqrt (x1 * x1 + x2 * x2 + x3 * x3)
  let us1 : UsVec :=
    { us with
      rho := n_ISM
      vx1 := 0
      vx2 := 0
      vx3 := 0
      prs := n_ISM * CONST_kB * T / (167 / 10 ^ 8) }
  let us2 : UsVec :=
    if r ≤ r_c ∧ r ≠ 0 then
      let eta := (1 + (n - 3) / 3 * ops.pow (ph / l * fnc) (1 / 2)
          * ops.pow (r / R_ch) (3 / 2))
        / (1 + n / 3 * ops.pow (ph / l * fnc) (1 / 2) * ops.pow (r / R_ch) (3 / 2))
      { us1 with
        rho := rho_ch * fnc * ops.pow w_c (-n)
        vx1 := x1 / t * eta
        vx2 := x2 / t * eta
        vx3 := x3 / t * eta
        prs := rho_ch * fnc * ops.pow w_c (-n) * CONST_kB * T / (167 / 10 ^ 8) }
    else us1
  let us3 : UsVec :=
    if r_c < r ∧ r ≤ R_ej then
      let eta := (1 + (n - 3) / 3 * ops.pow (ph / l * fnc) (1 / 2)
          * ops.pow (r / R_ch) (3 / 2))
        / (1 + n / 3 * ops.pow (ph / l * fnc) (1 / 2) * ops.pow (r / R_ch) (3 / 2))
      { us2 with
        rho := rho_ch * fnc * ops.pow (r / R_ej) (-n)
        vx1 := x1 / t * eta
        vx2 := x2 / t * eta
        vx3 := x3 / t * eta
        prs := rho_ch * fnc * ops.pow (r / R_ej) (-n) * CONST_kB * T / (167 / 10 ^ 8) }
    else us2
  let B0 := P.BMAG
  { us3 with
    ax1 := 0
    ax2 := us3.bx3 * x1
    ax3 := -us3.bx2 * x1 + us3.bx1 * x2 }

/-- The ejecta core radius of the CTB_109 Init version. -/
def ctbRc (ops : COps) (P : Params) : ℚ :=
  P.R_EJ * ops.pow (1 - P.ETA * P.M_EJ * (3 - P.N_PI)
    / (4 * CONST_PI * (P.N_H * P.U_AM) * ops.pow P.R_EJ 3)) (1 / (3 - P.N_PI))

/-- The ejecta core density of the CTB_109 Init version.  In the C
source the denominator reads 4/3*CONST_PI*pow(r_c,3): 4/3 is C integer
division and evaluates to 1, which the embedding keeps. -/
def ctbRhoC (ops : COps) (P : Params) : ℚ :=
  (1 - P.ETA) * P.M_EJ / (1 * CONST_PI * ops.pow (ctbRc ops P) 3)

/-- The Init function of src/PLUTO/CTB_109/init.c, embedded from the C
source.  rand is the pseudo-random stream (the source seeds it from the
current time); the local array a is filled from it exactly as in the
source — with C truncating integer division — and, like in the source,
never read afterwards (its one use is commented out). -/
def initCTB (ops : COps) (rand : ℕ → ℤ) (P : Params) (x1 x2 x3 : ℚ)
    (us : UsVec) : UsVec :=
  let R_ej := P.R_EJ
  let n_ISM := P.N_H * P.U_AM
  let n := P.N_PI
  let T : ℚ := 10 ^ 4
  let time0 : ℚ := 1
  let r_c := ctbRc ops P
  let rho_c := ctbRhoC ops P
  let r := ops.sqrt (x1 * x1 + x2 * x2 + x3 * x3)
  let a : ℕ → ℤ := fun i => (rand i % 10001 - 5000).tdiv 50000 + 1
  let us1 : UsVec :=
    { us with
      rho := n_ISM
      vx1 := 0
      vx2 := 0
      vx3 := 0
      prs := n_ISM * CONST_kB * T / (167 / 10 ^ 8) }
  let us2 : UsVec :=
    if r ≤ r_c ∧ r ≠ 0 then
      { us1 with
        rho := rho_c
        vx1 := R_ej / time0 * (ops.sqrt (x1 * x1 + x2 * x2) / r)
          * (x1 / ops.sqrt (x1 * x1 + x2 * x2))
        vx2 := R_ej / time0 * (ops.sqrt (x1 * x1 + x2 * x2) / r)
          * (x2 / ops.sqrt (x1 * x1 + x2 * x2))
        vx3 := R_ej / time0 * (|x3| / r)
        prs := rho_c * CONST_kB * T / (167 / 10 ^ 8) }
    else us1
  let us3 : UsVec :=
    if r_c < r ∧ r ≤ R_ej then
      { us2 with
        rho := rho_c * ops.pow (r / r_c) (-n)
        vx1 := R_ej / time0 * (ops.sqrt (x1 * x1 + x2 * x2) / r)
          * (x1 / ops.sqrt (x1 * x1 + x2 * x2))
        vx2 := R_ej / time0 * (ops.sqrt (x1 * x1 + x2 * x2) / r)
          * (x2 / ops.sqrt (x1 * x1 + x2 * x2))
        vx3 := R_ej / time0 * (|x3| / r)
        prs := rho_c * ops.pow (r / r_c) (-n) * CONST_kB * T / (167 / 10 ^ 8) }
    else us2
  let theta := P.THETA * CONST_PI / 180
  let phi := P.PHI * CONST_PI / 180
  let B0 := P.BMAG
  let us4 : UsVec :=
    { us3 with
      bx1 := B0 * ops.sin theta * ops.cos phi
      bx2 := B0 * ops.sin theta * ops.sin phi
      bx3 := B0 * ops.cos theta }
  { us4 with
    ax1 := 0
    ax2 := us4.bx3 * x1
    ax3 := -us4.bx2 * x1 + us4.bx1 * x2 }

/-- A concrete interpretation of the C math functions used to evaluate
the embeddings at sample inputs: sqrt 0 evaluates to 0 as the one
property ever relied on requires. -/
def sampleOps : COps := ⟨fun _ => 0, fun _ _ => 1, fun _ => 0, fun _ => 0⟩

/-- A sample parameter set with every g_inputParam entry equal to 1. -/
def sampleParams : Params := ⟨1, 1, 1, 1, 1, 1, 1, 1, 1, 1, 1, 1, 1, 1⟩

/-- A sample pre-call primitive array. -/
def sampleUs : UsVec := ⟨2, 3, 5, 7, 11, 13, 17, 19, 23, 29, 31⟩

end Pluto

namespace Pluto

/-- Componentwise value of a sum of conservative vectors. -/
@[simp]
theorem Cons.add_def (u v : Cons) :
    u + v = ⟨u.dens + v.dens, u.mx + v.mx, u.my + v.my, u.en + v.en⟩ := rfl

/-- Componentwise value of a difference of conservative vectors. -/
@[simp]
theorem Cons.sub_def (u v : Cons) :
    u - v = ⟨u.dens - v.dens, u.mx - v.mx, u.my - v.my, u.en - v.en⟩ := rfl

/-- The inertia density of an admissible state is positive. -/
theorem wtot_pos {g : ℚ} {q : Prim} (h : Admissible g q) : 0 < wtot g q := by
  obtain ⟨hg, hrho, hprs, -, hlor, -⟩ := h
  have hg1 : 0 < g - 1 := by linarith
  have h1 : 0 < g / (g - 1) * q.prs / q.rho :=
    div_pos (mul_pos (div_pos (by linarith) hg1) hprs) hrho
  have h2 : 0 < enthalpy g q := by
    unfold enthalpy
    linarith
  unfold wtot
  positivity

/-- A Newton iteration whose initial residual is already within the
tolerance accepts the initial guess at once. -/
theorem newton_accept (f df : ℚ → ℚ) (tol p : ℚ) (n : ℕ) (h : |f p| ≤ tol) :
    newton f df tol p n = some p := by
  cases n <;> simp [newton, h]

/-- C2: Riemann-solver consistency.  For every admissible interface
state q taken as both the left and the right state, each solver variant
of the RHD module — the diffusive TVDLF flux, the two-wave HLL flux for
any signal-speed estimates, the three-wave HLLC flux for the contact
speed that hllc.c's root-finding returns (the root of the contact
quadratic inside the light cone), and the iterative two-shock solver for
any wave curve that leaves a zero-strength wave invariant — returns
exactly the analytic physical flux of q. -/
theorem C2_riemann_consistency (g cmax sL sR lam tol : ℚ) (q : Prim)
    (wstar : Prim → ℚ → Prim) (dvstar : Prim → ℚ → ℚ)
    (hq : Admissible g q) (htol : 0 ≤ tol) (hw : wstar q q.prs = q)
    (hroot : hllcQuadA g sL sR q q * lam ^ 2 + hllcQuadB g sL sR q q * lam
      + hllcQuadC g sL sR q q = 0)
    (hlam : lam ^ 2 < 1) :
    tvdlf g cmax q q = physFlux g q ∧
    hll g sL sR q q = physFlux g q ∧
    hllc g sL sR lam q q = physFlux g q ∧
    (twoShock g wstar dvstar tol sL sR q q).flux = physFlux g q := by
  refine ⟨?_, ?_, ?_, ?_⟩
  · unfold tvdlf Cons.smul
    ext <;> simp <;> ring
  · unfold hll
    split_ifs with h1 h2
    · rfl
    · rfl
    · have hsL : sL < 0 := not_le.mp h1
      have hsR : 0 < sR := not_le.mp h2
      have hne : sR - sL ≠ 0 := ne_of_gt (by linarith)
      unfold Cons.smul
      ext <;> simp <;> field_simp <;> ring
  · unfold hllc
    split_ifs with h1 h2 h3 <;> try rfl
    all_goals
      have hsL : sL < 0 := not_le.mp h1
      have hsR : 0 < sR := not_le.mp h2
      have hne : sR - sL ≠ 0 := ne_of_gt (by linarith)
      have hW : 0 < wtot g q := wtot_pos hq
      have hA : hllcQuadA g sL sR q q = wtot g q * q.vx := by
        unfold hllcQuadA hllFlux physFlux primToCons Cons.smul
        simp only [Cons.add_def, Cons.sub_def]
        field_simp
        ring
      have hB : hllcQuadB g sL sR q q = -(wtot g q * (1 + q.vx ^ 2)) := by
        unfold hllcQuadB hllState hllFlux physFlux primToCons Cons.smul
        simp only [Cons.add_def, Cons.sub_def]
        field_simp
        ring
      have hC : hllcQuadC g sL sR q q = wtot g q * q.vx := by
        unfold hllcQuadC hllState physFlux primToCons Cons.smul
        simp only [Cons.add_def, Cons.sub_def]
        field_simp
        ring
      have hvx2 : q.vx ^ 2 < 1 := by
        have hv := hq.2.2.2.1
        nlinarith [sq_nonneg q.vy]
      have hfact : wtot g q * ((q.vx * lam - 1) * (lam - q.vx)) = 0 := by
        rw [hA, hB, hC] at hroot
        linear_combination hroot
      have hlamvx : lam = q.vx := by
        rcases mul_eq_zero.mp hfact with h | h
        · exact absurd h (ne_of_gt hW)
        · rcases mul_eq_zero.mp h with h' | h'
          · exfalso
            have h1' : q.vx * lam = 1 := by
              have := sub_eq_zero.mp h'
              linarith
            have hsq : q.vx ^ 2 * lam ^ 2 = 1 := by
              rw [← mul_pow, h1', one_pow]
            have hle : q.vx ^ 2 * lam ^ 2 ≤ q.vx ^ 2 * 1 :=
              mul_le_mul_of_nonneg_left (le_of_lt hlam) (sq_nonneg q.vx)
            rw [hsq, mul_one] at hle
            linarith
          · exact sub_eq_zero.mp h'
      have hps : hllcPs g sL sR q.vx q q = q.prs := by
        unfold hllcPs hllFlux physFlux primToCons Cons.smul
        simp only [Cons.add_def, Cons.sub_def]
        field_simp
        ring
      subst hlamvx
    · have hden : sL - q.vx ≠ 0 := ne_of_lt (by linarith)
      rw [hps]
      have hstar : hllcStar g sL q.vx q.prs q = primToCons g q := by
        unfold hllcStar primToCons
        ext <;> field_simp
      rw [hstar]
      ext <;> simp [Cons.smul]
    · have hvxneg : q.vx < 0 := not_le.mp h3
      have hden : sR - q.vx ≠ 0 := ne_of_gt (by linarith)
      rw [hps]
      have hstar : hllcStar g sR q.vx q.prs q = primToCons g q := by
        unfold hllcStar primToCons
        ext <;> field_simp
      rw [hstar]
      ext <;> simp [Cons.smul]
  · have hn := newton_accept (fun p => (wstar q p).vx - (wstar q p).vx)
      (fun p => dvstar q p - dvstar q p) tol ((q.prs + q.prs) / 2) TS_MAX_ITER
      (by simpa using htol)
    have hp0 : (q.prs + q.prs) / 2 = q.prs := by ring
    unfold twoShock
    rw [hn, hp0]
    simp [hw]

/-- Witness for C2: an admissible state evaluated through all four
solver variants with concrete speed estimates, contact speed, wave curve
and tolerance. -/
theorem C2_riemann_consistency_witness :
    tvdlf 2 1 ⟨1, 0, 0, 1, 1⟩ ⟨1, 0, 0, 1, 1⟩ = physFlux 2 ⟨1, 0, 0, 1, 1⟩ ∧
    hll 2 (-(1 / 2)) (1 / 2) ⟨1, 0, 0, 1, 1⟩ ⟨1, 0, 0, 1, 1⟩ = physFlux 2 ⟨1, 0, 0, 1, 1⟩ ∧
    hllc 2 (-(1 / 2)) (1 / 2) 0 ⟨1, 0, 0, 1, 1⟩ ⟨1, 0, 0, 1, 1⟩ = physFlux 2 ⟨1, 0, 0, 1, 1⟩ ∧
    (twoShock 2 (fun q' p => { q' with prs := p }) (fun _ _ => 0) 0 (-(1 / 2)) (1 / 2)
        ⟨1, 0, 0, 1, 1⟩ ⟨1, 0, 0, 1, 1⟩).flux = physFlux 2 ⟨1, 0, 0, 1, 1⟩ :=
  C2_riemann_consistency 2 1 (-(1 / 2)) (1 / 2) 0 0 ⟨1, 0, 0, 1, 1⟩
    (fun q' p => { q' with prs := p }) (fun _ _ => 0)
    (by norm_num [Admissible]) (by norm_num) rfl
    (by norm_num [hllcQuadA, hllcQuadB, hllcQuadC, hllState, hllFlux, physFlux,
      primToCons, Cons.smul, wtot, enthalpy])
    (by norm_num)

/-- Unfolding of the validity test into its three defining
inequalities. -/
theorem validState_true_iff (q : Prim) :
    validState q = true ↔ 0 < q.rho ∧ 0 < q.prs ∧ q.vx ^ 2 + q.vy ^ 2 < 1 := by
  simp [validState, and_assoc]

/-- The validity test fails exactly on the unphysical states. -/
theorem validState_false_iff (q : Prim) :
    validState q = false ↔ ¬(0 < q.rho ∧ 0 < q.prs ∧ q.vx ^ 2 + q.vy ^ 2 < 1) := by
  rw [← validState_true_iff, Bool.eq_false_iff, Ne, Bool.not_eq_true]

/-- C3: on an unphysical recovered state with at least one currently
valid immediate neighbor, the Pressure/Density Fix replaces the cell's
primitive state with the arithmetic mean of the valid neighbors'
primitive variables, re-derives the conservative state from the
repaired primitives, and the repaired state has strictly positive
density and pressure. -/
theorem C3_pressure_fix (g : ℚ) (q n : Prim) (nbs : List Prim)
    (hbad : validState q = false) (hn : n ∈ nbs) (hnv : validState n = true) :
    (pressureFix g q nbs).1 = primAverage (nbs.filter validState) ∧
    (pressureFix g q nbs).2 = primToCons g (pressureFix g q nbs).1 ∧
    0 < (pressureFix g q nbs).1.rho ∧ 0 < (pressureFix g q nbs).1.prs := by
  have hfix : pressureFix g q nbs
      = (primAverage (nbs.filter validState),
          primToCons g (primAverage (nbs.filter validState))) := by
    unfold pressureFix
    rw [hbad]
    simp
  have hmem : n ∈ nbs.filter validState := List.mem_filter.mpr ⟨hn, hnv⟩
  have hne : nbs.filter validState ≠ [] := List.ne_nil_of_mem hmem
  have hlen : 0 < (((nbs.filter validState).length : ℚ)) := by
    exact_mod_cast List.length_pos.mpr hne
  have hrho : 0 < ((nbs.filter validState).map Prim.rho).sum := by
    apply List.sum_pos
    · intro x hx
      obtain ⟨y, hy, rfl⟩ := List.mem_map.mp hx
      exact ((validState_true_iff y).mp (List.of_mem_filter hy)).1
    · simpa using hne
  have hprs : 0 < ((nbs.filter validState).map Prim.prs).sum := by
    apply List.sum_pos
    · intro x hx
      obtain ⟨y, hy, rfl⟩ := List.mem_map.mp hx
      exact ((validState_true_iff y).mp (List.of_mem_filter hy)).2.1
    · simpa using hne
  rw [hfix]
  exact ⟨rfl, rfl, div_pos hrho hlen, div_pos hprs hlen⟩

/-- Witness for C3: an unphysical cell (negative pressure) repaired from
one valid neighbor. -/
theorem C3_pressure_fix_witness :
    (pressureFix 2 ⟨1, 0, 0, -1, 1⟩ [⟨3, 0, 0, 1, 1⟩]).1
      = primAverage ([⟨3, 0, 0, 1, 1⟩].filter validState) ∧
    (pressureFix 2 ⟨1, 0, 0, -1, 1⟩ [⟨3, 0, 0, 1, 1⟩]).2
      = primToCons 2 (pressureFix 2 ⟨1, 0, 0, -1, 1⟩ [⟨3, 0, 0, 1, 1⟩]).1 ∧
    0 < (pressureFix 2 ⟨1, 0, 0, -1, 1⟩ [⟨3, 0, 0, 1, 1⟩]).1.rho ∧
    0 < (pressureFix 2 ⟨1, 0, 0, -1, 1⟩ [⟨3, 0, 0, 1, 1⟩]).1.prs :=
  C3_pressure_fix 2 ⟨1, 0, 0, -1, 1⟩ ⟨3, 0, 0, 1, 1⟩ [⟨3, 0, 0, 1, 1⟩]
    ((validState_false_iff _).mpr (by norm_num))
    (List.mem_singleton.mpr rfl)
    ((validState_true_iff _).mpr (by norm_num))

/-- A failing eigenvalue call reports exactly the offending cell's index
and field values. -/
theorem eigenv_error_eq {roots : Prim → Option (List ℚ)} {i : ℕ} {q : Prim}
    {e : EigenErr} (h : eigenv roots i q = .error e) : e = ⟨i, q⟩ := by
  rcases hr : roots q with - | ls
  · simp only [eigenv, hr] at h
    exact (Except.error.inj h).symm
  · simp only [eigenv, hr] at h
    split at h
    · cases h
    · exact (Except.error.inj h).symm

/-- C4: when the eigenvalue computation fails to produce real,
ascending-ordered characteristic speeds at some cell of the step, the
integrator's sweep returns a non-recoverable numerical-breakdown error
(so it never silently continues to an ok result), and the error carries
the offending cell's index and field values, for which the eigenvalue
computation indeed fails. -/
theorem C4_eigen_breakdown (roots : Prim → Option (List ℚ))
    (cells : List (ℕ × Prim)) (i : ℕ) (q : Prim) (e0 : EigenErr)
    (hmem : (i, q) ∈ cells) (hfail : eigenv roots i q = .error e0) :
    ∃ e : EigenErr, sweep roots cells = .error e ∧
      (e.idx, e.state) ∈ cells ∧ eigenv roots e.idx e.state = .error e ∧
      ∀ out, sweep roots cells ≠ .ok out := by
  induction cells with
  | nil => cases hmem
  | cons c rest ih =>
    rcases hc : eigenv roots c.1 c.2 with ec | ls
    · refine ⟨ec, ?_, ?_, ?_, ?_⟩
      · unfold sweep
        rw [hc]
      · have : ec = ⟨c.1, c.2⟩ := eigenv_error_eq hc
        subst this
        exact List.mem_cons_self ..
      · have : ec = ⟨c.1, c.2⟩ := eigenv_error_eq hc
        subst this
        exact hc
      · intro out hout
        unfold sweep at hout
        rw [hc] at hout
        cases hout
    · have hqrest : (i, q) ∈ rest := by
        rcases List.mem_cons.mp hmem with h | h
        · exfalso
          rw [← h] at hc
          rw [hc] at hfail
          cases hfail
        · exact h
      obtain ⟨e, he, hemem, hef, -⟩ := ih hqrest
      refine ⟨e, ?_, List.mem_cons_of_mem _ hemem, hef, ?_⟩
      · unfold sweep
        rw [hc, he]
      · intro out hout
        unfold sweep at hout
        rw [hc, he] at hout
        cases hout

/-- Witness for C4: a one-cell step whose root-finding does not
converge. -/
theorem C4_eigen_breakdown_witness :
    ∃ e : EigenErr, sweep (fun _ => none) [(0, ⟨1, 0, 0, 1, 1⟩)] = .error e ∧
      (e.idx, e.state) ∈ [((0 : ℕ), (⟨1, 0, 0, 1, 1⟩ : Prim))] ∧
      eigenv (fun _ => none) e.idx e.state = .error e ∧
      ∀ out, sweep (fun _ => none) [(0, ⟨1, 0, 0, 1, 1⟩)] ≠ .ok out :=
  C4_eigen_breakdown (fun _ => none) [(0, ⟨1, 0, 0, 1, 1⟩)] 0 ⟨1, 0, 0, 1, 1⟩
    ⟨0, ⟨1, 0, 0, 1, 1⟩⟩ (List.mem_singleton.mpr rfl) rfl

/-- A Newton iteration whose residual never meets the tolerance runs
out of fuel without converging. -/
theorem newton_none_of_abs_gt (f df : ℚ → ℚ) (tol : ℚ)
    (hf : ∀ p, ¬ |f p| ≤ tol) : ∀ p n, newton f df tol p n = none := by
  intro p n
  induction n generalizing p with
  | zero => simp [newton, hf p]
  | succ k ih => simp [newton, hf p, ih]

/-- C5: when the two-shock solver's Newton iteration on pressure fails
to converge within its fixed maximum number of steps, the solver returns
the two-wave HLL flux for that single face and raises the logged
fallback flag; the result is still an ordinary flux (the solver has no
abort channel), so the time step continues. -/
theorem C5_two_shock_fallback (g tol sL sR : ℚ) (qL qR : Prim)
    (wstar : Prim → ℚ → Prim) (dvstar : Prim → ℚ → ℚ)
    (hdiv : newton (fun p => (wstar qL p).vx - (wstar qR p).vx)
      (fun p => dvstar qL p - dvstar qR p) tol ((qL.prs + qR.prs) / 2)
      TS_MAX_ITER = none) :
    twoShock g wstar dvstar tol sL sR qL qR
      = ⟨hll g sL sR qL qR, true⟩ := by
  unfold twoShock
  rw [hdiv]

/-- Witness for C5: a wave curve whose residual stays at one while the
zero derivative freezes the Newton iterate, so the iteration never
converges and the face falls back to the HLL flux. -/
theorem C5_two_shock_fallback_witness :
    twoShock 2 (fun q' p => { q' with prs := p }) (fun _ _ => 0) 0 (-1) 1
        ⟨1, 1, 0, 1, 1⟩ ⟨1, 0, 0, 1, 1⟩
      = ⟨hll 2 (-1) 1 ⟨1, 1, 0, 1, 1⟩ ⟨1, 0, 0, 1, 1⟩, true⟩ :=
  C5_two_shock_fallback 2 0 (-1) 1 ⟨1, 1, 0, 1, 1⟩ ⟨1, 0, 0, 1, 1⟩
    (fun q' p => { q' with prs := p }) (fun _ _ => 0)
    (newton_none_of_abs_gt _ _ _ (fun p => by norm_num) _ TS_MAX_ITER)

/-- For two positive one-sided differences the van Leer slope is
positive and at most twice either difference. -/
theorem vanLeer_pos_bounds {dp dm : ℚ} (hp : 0 < dp) (hm : 0 < dm) :
    0 < vanLeer dp dm ∧ vanLeer dp dm ≤ 2 * dp ∧ vanLeer dp dm ≤ 2 * dm := by
  have hsum : 0 < dp + dm := by linarith
  unfold vanLeer
  rw [if_pos (mul_pos hp hm)]
  refine ⟨by positivity, ?_, ?_⟩
  · rw [div_le_iff₀ hsum]
    nlinarith
  · rw [div_le_iff₀ hsum]
    nlinarith

/-- The van Leer limiter is odd in its pair of arguments. -/
theorem vanLeer_neg (dp dm : ℚ) : vanLeer (-dp) (-dm) = -vanLeer dp dm := by
  unfold vanLeer
  have hc : -dp * -dm = dp * dm := by ring
  rw [hc]
  split_ifs with h
  · have h1 : 2 * -dp * -dm = 2 * dp * dm := by ring
    have h2 : -dp + -dm = -(dp + dm) := by ring
    rw [h1, h2, div_neg]
  · simp

/-- The unclamped limited interface values of a cell lie between the
smallest and the largest value of its stencil. -/
theorem recon_raw_bounds (qm q qp : ℚ) :
    (min qm (min q qp) ≤ q - vanLeer (qp - q) (q - qm) / 2 ∧
      q - vanLeer (qp - q) (q - qm) / 2 ≤ max qm (max q qp)) ∧
    (min qm (min q qp) ≤ q + vanLeer (qp - q) (q - qm) / 2 ∧
      q + vanLeer (qp - q) (q - qm) / 2 ≤ max qm (max q qp)) := by
  have hminm : min qm (min q qp) ≤ qm := min_le_left ..
  have hminq : min qm (min q qp) ≤ q := le_trans (min_le_right ..) (min_le_left ..)
  have hminp : min qm (min q qp) ≤ qp := le_trans (min_le_right ..) (min_le_right ..)
  have hmaxm : qm ≤ max qm (max q qp) := le_max_left ..
  have hmaxq : q ≤ max qm (max q qp) := le_trans (le_max_left ..) (le_max_right ..)
  have hmaxp : qp ≤ max qm (max q qp) := le_trans (le_max_right ..) (le_max_right ..)
  by_cases hc : 0 < (qp - q) * (q - qm)
  · rcases mul_pos_iff.mp hc with ⟨hp, hm⟩ | ⟨hp, hm⟩
    · obtain ⟨h1, h2, h3⟩ := vanLeer_pos_bounds hp hm
      exact ⟨⟨by linarith, by linarith⟩, by constructor <;> linarith⟩
    · have hp' : 0 < -(qp - q) := by linarith
      have hm' : 0 < -(q - qm) := by linarith
      obtain ⟨h1, h2, h3⟩ := vanLeer_pos_bounds hp' hm'
      have hneg : vanLeer (qp - q) (q - qm) = -vanLeer (-(qp - q)) (-(q - qm)) := by
        rw [vanLeer_neg, neg_neg]
      rw [hneg]
      exact ⟨⟨by linarith, by linarith⟩, by constructor <;> linarith⟩
  · unfold vanLeer
    rw [if_neg hc]
    exact ⟨⟨by linarith, by linarith⟩, by constructor <;> linarith⟩

/-- C6: the slope-limited van-Leer linear reconstruction introduces no
new local extrema — both interface values of a cell stay between the
smallest and the largest cell average of its stencil — and for a
positive quantity with a positive stencil both interface values stay
strictly positive (an extrapolation that would turn negative is replaced
by the donor-cell value, itself in the stencil's range). -/
theorem C6_reconstruction (clampPos : Bool) (qm q qp : ℚ) :
    (min qm (min q qp) ≤ (reconstruct clampPos qm q qp).1 ∧
      (reconstruct clampPos qm q qp).1 ≤ max qm (max q qp) ∧
      min qm (min q qp) ≤ (reconstruct clampPos qm q qp).2 ∧
      (reconstruct clampPos qm q qp).2 ≤ max qm (max q qp)) ∧
    (0 < qm → 0 < q → 0 < qp →
      0 < (reconstruct clampPos qm q qp).1 ∧ 0 < (reconstruct clampPos qm q qp).2) := by
  have hminq : min qm (min q qp) ≤ q := le_trans (min_le_right ..) (min_le_left ..)
  have hmaxq : q ≤ max qm (max q qp) := le_trans (le_max_left ..) (le_max_right ..)
  obtain ⟨⟨hl1, hl2⟩, hr1, hr2⟩ := recon_raw_bounds qm q qp
  have ho1 : (reconstruct clampPos qm q qp).1 = q ∨
      (reconstruct clampPos qm q qp).1 = q - vanLeer (qp - q) (q - qm) / 2 := by
    unfold reconstruct
    split_ifs <;> simp
  have ho2 : (reconstruct clampPos qm q qp).2 = q ∨
      (reconstruct clampPos qm q qp).2 = q + vanLeer (qp - q) (q - qm) / 2 := by
    unfold reconstruct
    split_ifs <;> simp
  have hb1 : min qm (min q qp) ≤ (reconstruct clampPos qm q qp).1 ∧
      (reconstruct clampPos qm q qp).1 ≤ max qm (max q qp) := by
    rcases ho1 with h | h <;> rw [h]
    · exact ⟨hminq, hmaxq⟩
    · exact ⟨hl1, hl2⟩
  have hb2 : min qm (min q qp) ≤ (reconstruct clampPos qm q qp).2 ∧
      (reconstruct clampPos qm q qp).2 ≤ max qm (max q qp) := by
    rcases ho2 with h | h <;> rw [h]
    · exact ⟨hminq, hmaxq⟩
    · exact ⟨hr1, hr2⟩
  refine ⟨⟨hb1.1, hb1.2, hb2.1, hb2.2⟩, fun h1 h2 h3 => ?_⟩
  have hmin : 0 < min qm (min q qp) := lt_min h1 (lt_min h2 h3)
  exact ⟨lt_of_lt_of_le hmin hb1.1, lt_of_lt_of_le hmin hb2.1⟩

/-- Componentwise value of a sum of cell vectors. -/
@[simp]
theorem MVec.add_entries (u v : MVec) :
    u + v = ⟨u.dens + v.dens, u.mx + v.mx, u.my + v.my, u.en + v.en,
      u.bcx + v.bcx, u.bcy + v.bcy⟩ := rfl

/-- Componentwise value of a difference of cell vectors. -/
@[simp]
theorem MVec.sub_entries (u v : MVec) :
    u - v = ⟨u.dens - v.dens, u.mx - v.mx, u.my - v.my, u.en - v.en,
      u.bcx - v.bcx, u.bcy - v.bcy⟩ := rfl

/-- Reconstruction of a flat stencil returns the cell value at both
interfaces. -/
theorem reconstruct_const (clampPos : Bool) (q : ℚ) :
    reconstruct clampPos q q q = (q, q) := by
  unfold reconstruct vanLeer
  simp

/-- Componentwise reconstruction of a flat stencil keeps the cell
vector at both interfaces. -/
theorem mReconstruct_const (p : MPrim) : mReconstruct p p p = (p, p) := by
  unfold mReconstruct
  simp [reconstruct_const]

/-- The spatial sub-stage leaves a uniform state with a valid recovered
primitive state exactly unchanged. -/
theorem stage_uniform_fixed (xflux yflux : MPrim → MPrim → ℚ → MVec)
    (emfAvg : ℚ → ℚ → ℚ → ℚ → ℚ) (recover : MVec → MPrim) (toCons : MPrim → MVec)
    (dt dx dy : ℚ) (u : MVec) (bx0 by0 : ℚ)
    (hvalid : mValid (recover u) = true) :
    stage xflux yflux emfAvg recover toCons dt dx dy (uniformState u bx0 by0)
      = uniformState u bx0 by0 := by
  unfold stage uniformState ctUpdate
  have hcc1 : ∀ F G : MVec,
      u + MVec.smul (dt / dx) (F - F) + MVec.smul (dt / dy) (G - G) = u := by
    intro F G
    ext <;> simp [MVec.smul]
  refine GridState.ext ?_ (FaceField.ext ?_ ?_) <;>
    funext i j <;>
    simp only [mReconstruct_const, hcc1, hvalid, if_true, sub_self, mul_zero,
      sub_zero, add_zero]

/-- C7: the null test.  A spatially uniform static state — zero
velocity, uniform positive density and pressure, and a (non-zero)
uniform magnetic field — is an exact fixed point of the
advance-one-step operation: any number of RK2 steps, for any Riemann
solver, CT edge-averaging rule, recovery and mapper, returns the state
exactly unchanged. -/
theorem C7_null_test (xflux yflux : MPrim → MPrim → ℚ → MVec)
    (emfAvg : ℚ → ℚ → ℚ → ℚ → ℚ) (recover : MVec → MPrim) (toCons : MPrim → MVec)
    (dt dx dy : ℚ) (u : MVec) (bx0 by0 : ℚ)
    (hrho : 0 < (recover u).rho) (hprs : 0 < (recover u).prs)
    (hvx : (recover u).vx = 0) (hvy : (recover u).vy = 0)
    (hb : bx0 ≠ 0 ∨ by0 ≠ 0) (nIter : ℕ) :
    (rk2Step xflux yflux emfAvg recover toCons dt dx dy)^[nIter]
      (uniformState u bx0 by0) = uniformState u bx0 by0 := by
  have hvalid : mValid (recover u) = true := by
    simp [mValid, hvx, hvy, hrho, hprs]
  have hfix : rk2Step xflux yflux emfAvg recover toCons dt dx dy
      (uniformState u bx0 by0) = uniformState u bx0 by0 := by
    unfold rk2Step
    rw [stage_uniform_fixed xflux yflux emfAvg recover toCons dt dx dy u bx0 by0 hvalid,
      stage_uniform_fixed xflux yflux emfAvg recover toCons dt dx dy u bx0 by0 hvalid]
    unfold uniformState
    refine GridState.ext ?_ (FaceField.ext ?_ ?_) <;> funext i j
    · ext <;> simp [MVec.smul] <;> ring
    · show (bx0 + bx0) / 2 = bx0
      ring
    · show (by0 + by0) / 2 = by0
      ring
  induction nIter with
  | zero => rfl
  | succ k ih => rw [Function.iterate_succ_apply, hfix, ih]

/-- Witness for C7: two steps on a concrete uniform magnetized static
state, with concrete component choices. -/
theorem C7_null_test_witness :
    (rk2Step (fun _ _ _ => ⟨1, 2, 3, 4, 5, 6⟩) (fun _ _ _ => ⟨6, 5, 4, 3, 2, 1⟩)
        (fun a b c d => a + b + c + d) (fun _ => ⟨1, 0, 0, 1, 1, 0⟩)
        (fun _ => ⟨1, 0, 0, 1, 1, 0⟩) 1 1 1)^[2]
      (uniformState ⟨1, 0, 0, 1, 1, 0⟩ 1 0) = uniformState ⟨1, 0, 0, 1, 1, 0⟩ 1 0 :=
  C7_null_test (fun _ _ _ => ⟨1, 2, 3, 4, 5, 6⟩) (fun _ _ _ => ⟨6, 5, 4, 3, 2, 1⟩)
    (fun a b c d => a + b + c + d) (fun _ => ⟨1, 0, 0, 1, 1, 0⟩)
    (fun _ => ⟨1, 0, 0, 1, 1, 0⟩) 1 1 1 ⟨1, 0, 0, 1, 1, 0⟩ 1 0
    (by norm_num) (by norm_num) rfl rfl (Or.inl (by norm_num)) 2

/-- C8: with BACKGROUND_FIELD and ADD_TURBULENCE both off, the unnamed
Init version never assigns the magnetic-field entries us[BX1], us[BX2],
us[BX3] (the assignments are commented out in the source): for every
math-function interpretation, parameter set, position and pre-call
array they keep their pre-call values, and the vector-potential entries
us[AX2], us[AX3] that Init does write are computed from those unassigned
pre-call magnetic-field values. -/
theorem C8_initBlast_field_passthrough (ops : COps) (P : Params) (x1 x2 x3 : ℚ)
    (us : UsVec) :
    (initBlast ops P x1 x2 x3 us).bx1 = us.bx1 ∧
    (initBlast ops P x1 x2 x3 us).bx2 = us.bx2 ∧
    (initBlast ops P x1 x2 x3 us).bx3 = us.bx3 ∧
    (initBlast ops P x1 x2 x3 us).ax2 = us.bx3 * x1 ∧
    (initBlast ops P x1 x2 x3 us).ax3 = -us.bx2 * x1 + us.bx1 * x2 := by
  simp only [initBlast]
  split_ifs <;> simp

/-- C9: the state written by the CTB_109 Init is independent of the
pseudo-random number generator: the 10000-entry array filled from
rand() is dead, so two calls with identical position, parameters and
pre-call array but different random streams write identical states. -/
theorem C9_initCTB_rand_independent (ops : COps) (r1 r2 : ℕ → ℤ) (P : Params)
    (x1 x2 x3 : ℚ) (us : UsVec) :
    initCTB ops r1 P x1 x2 x3 us = initCTB ops r2 P x1 x2 x3 us := rfl

/-- C10: at the exact origin both Init versions leave the ambient-medium
assignment in place — density n_ISM, zero velocity, ambient pressure —
because r = sqrt 0 = 0 falsifies the first ejecta branch's r ≠ 0
conjunct and (for a non-negative core radius) the second branch's
r_c < r conjunct, even though the origin lies inside the ejecta
radius. -/
theorem C10_origin_ambient (ops : COps) (rand : ℕ → ℤ) (P : Params)
    (us us' : UsVec) (hsqrt0 : ops.sqrt 0 = 0)
    (hrc1 : 0 ≤ blastRc P) (hrc2 : 0 ≤ ctbRc ops P) :
    ((initBlast ops P 0 0 0 us).rho = P.N_H * P.U_AM ∧
      (initBlast ops P 0 0 0 us).vx1 = 0 ∧
      (initBlast ops P 0 0 0 us).vx2 = 0 ∧
      (initBlast ops P 0 0 0 us).vx3 = 0 ∧
      (initBlast ops P 0 0 0 us).prs
        = P.N_H * P.U_AM * CONST_kB * P.Temp / (167 / 10 ^ 8)) ∧
    ((initCTB ops rand P 0 0 0 us').rho = P.N_H * P.U_AM ∧
      (initCTB ops rand P 0 0 0 us').vx1 = 0 ∧
      (initCTB ops rand P 0 0 0 us').vx2 = 0 ∧
      (initCTB ops rand P 0 0 0 us').vx3 = 0 ∧
      (initCTB ops rand P 0 0 0 us').prs
        = P.N_H * P.U_AM * CONST_kB * 10 ^ 4 / (167 / 10 ^ 8)) := by
  have h0 : (0 : ℚ) * 0 + 0 * 0 + 0 * 0 = 0 := by norm_num
  constructor
  · simp only [initBlast, h0, hsqrt0]
    rw [if_neg (fun h => absurd h.1 (not_lt.mpr hrc1)), if_neg (fun h => h.2 rfl)]
    exact ⟨rfl, rfl, rfl, rfl, rfl⟩
  · simp only [initCTB, h0, hsqrt0]
    rw [if_neg (fun h => absurd h.1 (not_lt.mpr hrc2)), if_neg (fun h => h.2 rfl)]
    exact ⟨rfl, rfl, rfl, rfl, rfl⟩

/-- Witness for C10: both embedded Init versions evaluated at the origin
with a sample math-function interpretation, parameter set and pre-call
array. -/
theorem C10_origin_ambient_witness :
    ((initBlast sampleOps sampleParams 0 0 0 sampleUs).rho
        = sampleParams.N_H * sampleParams.U_AM ∧
      (initBlast sampleOps sampleParams 0 0 0 sampleUs).vx1 = 0 ∧
      (initBlast sampleOps sampleParams 0 0 0 sampleUs).vx2 = 0 ∧
      (initBlast sampleOps sampleParams 0 0 0 sampleUs).vx3 = 0 ∧
      (initBlast sampleOps sampleParams 0 0 0 sampleUs).prs
        = sampleParams.N_H * sampleParams.U_AM * CONST_kB * sampleParams.Temp
          / (167 / 10 ^ 8)) ∧
    ((initCTB sampleOps (fun _ => 0) sampleParams 0 0 0 sampleUs).rho
        = sampleParams.N_H * sampleParams.U_AM ∧
      (initCTB sampleOps (fun _ => 0) sampleParams 0 0 0 sampleUs).vx1 = 0 ∧
      (initCTB sampleOps (fun _ => 0) sampleParams 0 0 0 sampleUs).vx2 = 0 ∧
      (initCTB sampleOps (fun _ => 0) sampleParams 0 0 0 sampleUs).vx3 = 0 ∧
      (initCTB sampleOps (fun _ => 0) sampleParams 0 0 0 sampleUs).prs
        = sampleParams.N_H * sampleParams.U_AM * CONST_kB * 10 ^ 4
          / (167 / 10 ^ 8)) :=
  C10_origin_ambient sampleOps (fun _ => 0) sampleParams sampleUs sampleUs rfl
    (by norm_num [blastRc, sampleParams])
    (by norm_num [ctbRc, sampleOps, sampleParams])

/-- C1: the CT update is divergence-preserving by construction: for every
face field, every edge-EMF assignment (hence every supported
edge-averaging rule) and in particular for the UCT_CONTACT rule of the
configuration, the discrete divergence after the update equals the
discrete divergence before it; a state of zero discrete divergence
therefore stays at exactly zero. -/
theorem C1_ct_divergence_preserved (B : FaceField) (dt dx dy : ℚ)
    (ez exS exN eyW eyE vctr : ℤ → ℤ → ℚ) (i j : ℤ) :
    divB (ctUpdate B ez dt dx dy) dx dy i j = divB B dx dy i j ∧
    divB (ctUpdate B (uctContact exS exN eyW eyE vctr) dt dx dy) dx dy i j
      = divB B dx dy i j := by
  constructor <;>
  · simp only [divB, ctUpdate]
    ring

end Pluto
